import Mathlib

/-!
# MedVault — verification of the encryption-aware ingestion pipeline
# and hybrid retrieval engine

A shallow embedding of the MedVault RAG pipeline (`src/encryption.py`,
`src/config.py`, `src/rag_engine.py`) together with proofs of the
claims of the specification about it.

Machine integers are modelled as `Nat`; UTF-8 text that only flows through
encryption is modelled as its byte list; Python exceptions become an
explicit error type threaded through `Except`.
-/

namespace MedVault

/-- Byte strings (UTF-8 encoded text). -/
abbrev Bytes := List Nat

/-- Python exceptions raised by the embedded code, carrying the class and
message so that distinct raises are distinct values. -/
inductive PyExc
  | valueError (msg : String)
  | fileNotFoundError (msg : String)
  deriving DecidableEq, Repr

/-- The `ValueError` raised by `decrypt_text` on an authentication failure
(`InvalidToken` from the Fernet layer), `src/encryption.py` line 160. -/
def integrityError : PyExc :=
  .valueError "Decryption failed - data integrity check failed"

/-- The `ValueError` raised by `encrypt_text`/`decrypt_text` when the
manager is disabled, `src/encryption.py` lines 130 and 153. -/
def notEnabledError : PyExc := .valueError "Encryption not enabled"

/-! ## Fernet primitive

Modelled from the spec: the Fernet token of the `cryptography` library
(spec §4.1) is external to the repository. Per the spec it is a
self-contained authenticated token — confidentiality + integrity with an
embedded nonce — whose decryption fails verifiably when the authentication
tag does not match. The stream cipher is abstracted as an XOR pad derived
from key and nonce, and the HMAC-SHA256 tag as a symbolic MAC term that is
injective in key, nonce and ciphertext (the ideal-MAC model); no
cryptographic strength is claimed, only the functional contract. -/

/-- Modelled from the spec: the keystream byte Fernet derives from key and
nonce (AES-128-CBC abstracted as an XOR pad). -/
def fernetPad (key nonce : Nat) : Nat := (key + 31 * nonce) % 256

/-- Modelled from the spec: the authentication tag (HMAC-SHA256) as a
symbolic MAC term, injective in key, nonce and ciphertext. -/
structure FernetMac where
  key : Nat
  nonce : Nat
  payload : Bytes
  deriving DecidableEq, Repr

def fernetMac (key nonce : Nat) (payload : Bytes) : FernetMac :=
  ⟨key, nonce, payload⟩

/-- Modelled from the spec: a Fernet token — nonce, ciphertext payload and
authentication tag. -/
structure FernetToken where
  nonce : Nat
  payload : Bytes
  tag : FernetMac
  deriving DecidableEq, Repr

/-- Modelled from the spec: Fernet encryption of a byte string under `key`
with a fresh `nonce` (randomness made explicit as a parameter). -/
def fernetEncrypt (key nonce : Nat) (p : Bytes) : FernetToken :=
  let payload := p.map (fun b => b ^^^ fernetPad key nonce)
  ⟨nonce, payload, fernetMac key nonce payload⟩

/-- Modelled from the spec: Fernet decryption — verify the tag, then undo
the pad; `none` models `InvalidToken`. -/
def fernetDecrypt (key : Nat) (t : FernetToken) : Option Bytes :=
  if t.tag = fernetMac key t.nonce t.payload then
    some (t.payload.map (fun b => b ^^^ fernetPad key t.nonce))
  else
    none

/-- The textual content of a file or message: either plain text (never a
valid serialized token) or a serialized Fernet token. Fernet raises
`InvalidToken` on input that does not parse as a token, which the `raw`
case captures. -/
inductive Content
  | raw (bytes : Bytes)
  | token (t : FernetToken)
  deriving DecidableEq, Repr

/-! ## EncryptionManager (`src/encryption.py`) -/

/-- State of `EncryptionManager`: the cipher (`none` when absent) and the enabled
flag, `src/encryption.py` lines 46-47. The Fernet key is the `Nat` key of
the modelled primitive. -/
structure EncryptionManager where
  encryption_enabled : Bool
  cipher : Option Nat
  deriving DecidableEq, Repr

/-- PBKDF2-HMAC-SHA256 key derivation with the fixed salt
`medvault_salt_v1`, `src/encryption.py` lines 74-99, abstracted as a
deterministic injective-enough fold of the password bytes. -/
def kdfPBKDF2 (password : Bytes) : Nat :=
  password.foldl (fun acc b => acc * 257 + b % 256 + 1) 0

/-- Embeds `EncryptionManager.__init__` combined with the `get_encryption_manager`
factory (`src/encryption.py` lines 34-62, 286-336): explicit key wins over
password; neither yields a disabled manager. -/
def get_encryption_manager (key : Option Nat) (password : Option Bytes) :
    EncryptionManager :=
  match key with
  | some k => { encryption_enabled := true, cipher := some k }
  | none =>
    match password with
    | some pw => { encryption_enabled := true, cipher := some (kdfPBKDF2 pw) }
    | none => { encryption_enabled := false, cipher := none }

/-- Embeds `EncryptionManager.encrypt_text`, `src/encryption.py` lines 116-137:
raise `ValueError` unless enabled with a cipher, otherwise return the
Fernet token (as token text). The nonce parameter makes the internal
randomness of Fernet explicit. -/
def EncryptionManager.encrypt_text (em : EncryptionManager) (nonce : Nat)
    (p : Bytes) : Except PyExc Content :=
  match em.encryption_enabled, em.cipher with
  | true, some k => .ok (.token (fernetEncrypt k nonce p))
  | _, _ => .error notEnabledError

/-- Embeds `EncryptionManager.decrypt_text`, `src/encryption.py` lines 139-163:
raise `ValueError` unless enabled with a cipher; map `InvalidToken`
(non-token input or failed tag verification) to the integrity
`ValueError`. -/
def EncryptionManager.decrypt_text (em : EncryptionManager) (c : Content) :
    Except PyExc Bytes :=
  match em.encryption_enabled, em.cipher with
  | true, some k =>
    match c with
    | .raw _ => .error integrityError
    | .token t =>
      match fernetDecrypt k t with
      | some p => .ok p
      | none => .error integrityError
  | _, _ => .error notEnabledError

/-- Embeds `EncryptionManager.decrypt_file_in_memory`, `src/encryption.py` lines
200-232: the file read result is a parameter (`.error` models a failed
`open`, re-raised). If encryption is disabled the content is returned
as-is; otherwise it is decrypted, and decryption failures are re-raised. -/
def EncryptionManager.decrypt_file_in_memory (em : EncryptionManager)
    (file : Except PyExc Content) : Except PyExc Content :=
  match file with
  | .error e => .error e
  | .ok content =>
    if em.encryption_enabled = false then .ok content
    else
      match em.decrypt_text content with
      | .ok p => .ok (.raw p)
      | .error e => .error e

/-! ### Helper lemmas -/

/-- Applying the same XOR pad twice is the identity on byte lists. -/
theorem map_xor_map_xor (l : Bytes) (c : Nat) :
    (l.map (fun b => b ^^^ c)).map (fun b => b ^^^ c) = l := by
  induction l with
  | nil => rfl
  | cons b t ih =>
      simp only [List.map_cons, List.cons.injEq]
      exact ⟨by rw [Nat.xor_assoc, Nat.xor_self, Nat.xor_zero], ih⟩

/-- Decryption under the encrypting key undoes `fernetEncrypt`. -/
theorem fernetDecrypt_fernetEncrypt (key nonce : Nat) (p : Bytes) :
    fernetDecrypt key (fernetEncrypt key nonce p) = some p := by
  have h : ((p.map (fun b => b ^^^ fernetPad key nonce)).map
      (fun b => b ^^^ fernetPad key nonce)) = p := map_xor_map_xor p _
  simp only [fernetDecrypt, fernetEncrypt, List.map_map] at h ⊢
  simp [h]

/-- Replacing a byte of a list by a different value yields a different
list. -/
theorem set_ne_of_ne (l : Bytes) (i : Nat) (b : Nat) (hi : i < l.length)
    (hb : b ≠ l.get ⟨i, hi⟩) : l.set i b ≠ l := by
  intro h
  apply hb
  have h2 : (l.set i b)[i]? = l[i]? := by rw [h]
  rw [List.getElem?_set_self hi, List.getElem?_eq_getElem hi] at h2
  simpa [List.get_eq_getElem] using h2

/-- A token whose tag is not the MAC of its own payload under `key` fails
Fernet decryption. -/
theorem fernetDecrypt_tag_ne (key : Nat) (t : FernetToken)
    (h : t.tag ≠ fernetMac key t.nonce t.payload) : fernetDecrypt key t = none := by
  unfold fernetDecrypt
  rw [if_neg h]

/-- On an enabled manager, `decrypt_text` maps a failed tag verification to
the integrity `ValueError`. -/
theorem decrypt_text_error_of_tag_ne (em : EncryptionManager) (k : Nat)
    (he : em.encryption_enabled = true) (hk : em.cipher = some k)
    (t : FernetToken) (h : t.tag ≠ fernetMac k t.nonce t.payload) :
    em.decrypt_text (.token t) = .error integrityError := by
  obtain ⟨en, ci⟩ := em
  simp only at he hk
  subst he; subst hk
  simp [EncryptionManager.decrypt_text, fernetDecrypt_tag_ne k t h]

/-- C3: for every plaintext `p` and every encryption manager produced by
the factory that is enabled (initialized from an explicit key or a
password), `decrypt_text (encrypt_text p) = p`. -/
theorem C3_encrypt_decrypt_roundtrip (key : Option Nat) (password : Option Bytes)
    (hen : (get_encryption_manager key password).encryption_enabled = true)
    (nonce : Nat) (p : Bytes) (c : Content)
    (henc : (get_encryption_manager key password).encrypt_text nonce p = .ok c) :
    (get_encryption_manager key password).decrypt_text c = .ok p := by
  cases key with
  | some k =>
      simp only [get_encryption_manager, EncryptionManager.encrypt_text] at henc
      cases henc
      simp [get_encryption_manager, EncryptionManager.decrypt_text,
        fernetDecrypt_fernetEncrypt]
  | none =>
      cases password with
      | some pw =>
          simp only [get_encryption_manager, EncryptionManager.encrypt_text] at henc
          cases henc
          simp [get_encryption_manager, EncryptionManager.decrypt_text,
            fernetDecrypt_fernetEncrypt]
      | none =>
          simp [get_encryption_manager] at hen

/-- Concrete instance of the encrypt/decrypt round trip, key-initialized
manager, plaintext bytes [72, 105]. -/
theorem C3_encrypt_decrypt_roundtrip_witness :
    (get_encryption_manager (some 7) none).decrypt_text
      (Content.token (fernetEncrypt 7 3 [72, 105])) = .ok [72, 105] :=
  C3_encrypt_decrypt_roundtrip (some 7) none rfl 3 [72, 105]
    (Content.token (fernetEncrypt 7 3 [72, 105])) rfl

/-- C4: for every token produced by `encrypt_text`, replacing any byte of
its ciphertext payload by a different value makes `decrypt_text` fail with
the integrity `ValueError` (never returning a plaintext); decrypting the
unmodified token under a different key fails with the same integrity
error; and that error is distinguishable from every file-I/O error and
from the not-enabled usage error. -/
theorem C4_tamper_detection (em : EncryptionManager) (k : Nat)
    (he : em.encryption_enabled = true) (hk : em.cipher = some k)
    (nonce : Nat) (p : Bytes) (t : FernetToken)
    (henc : em.encrypt_text nonce p = .ok (.token t))
    (i : Nat) (b : Nat) (hi : i < t.payload.length)
    (hb : b ≠ t.payload.get ⟨i, hi⟩) :
    em.decrypt_text (.token { t with payload := t.payload.set i b }) =
        .error integrityError ∧
    (∀ (em2 : EncryptionManager) (k2 : Nat), em2.encryption_enabled = true →
        em2.cipher = some k2 → k2 ≠ k →
        em2.decrypt_text (.token t) = .error integrityError) ∧
    (∀ msg, integrityError ≠ PyExc.fileNotFoundError msg) ∧
    integrityError ≠ notEnabledError := by
  simp only [EncryptionManager.encrypt_text, he, hk] at henc
  have ht : t = fernetEncrypt k nonce p := by
    cases henc; rfl
  subst ht
  refine ⟨?_, ?_, ?_, ?_⟩
  · apply decrypt_text_error_of_tag_ne em k he hk
    simp only [fernetEncrypt, fernetMac, ne_eq, FernetMac.mk.injEq,
      true_and, not_and]
    intro hpl
    exact absurd hpl.symm (set_ne_of_ne _ i b hi hb)
  · intro em2 k2 he2 hk2 hkk
    apply decrypt_text_error_of_tag_ne em2 k2 he2 hk2
    simp only [fernetEncrypt, fernetMac, ne_eq, FernetMac.mk.injEq, not_and]
    intro hkeq
    exact absurd hkeq.symm hkk
  · intro msg
    simp [integrityError]
  · simp [integrityError, notEnabledError]

/-- Concrete tamper-detection instance: key 5, plaintext [10, 20], byte 0
of the payload replaced by 0. -/
theorem C4_tamper_detection_witness :
    (get_encryption_manager (some 5) none).decrypt_text
      (.token { fernetEncrypt 5 0 [10, 20] with
                payload := (fernetEncrypt 5 0 [10, 20]).payload.set 0 0 }) =
      .error integrityError :=
  (C4_tamper_detection (get_encryption_manager (some 5) none) 5 rfl rfl
    0 [10, 20] (fernetEncrypt 5 0 [10, 20]) rfl 0 0 (by decide) (by decide)).1

/-- C10: with neither key nor password supplied the manager is disabled:
`encrypt_text` and `decrypt_text` raise `ValueError` on every input, while
`decrypt_file_in_memory` returns the file content unchanged. -/
theorem C10_disabled_manager_behavior :
    (∀ nonce p, (get_encryption_manager none none).encrypt_text nonce p =
        .error notEnabledError) ∧
    (∀ c, (get_encryption_manager none none).decrypt_text c =
        .error notEnabledError) ∧
    (∀ c, (get_encryption_manager none none).decrypt_file_in_memory (.ok c) =
        .ok c) :=
  ⟨fun _ _ => rfl, fun _ => rfl, fun _ => rfl⟩

/-! ## Document loader (`src/rag_engine.py` lines 147-208) -/

/-- A LangChain `Document` as produced by the loader: page content plus
the source path metadata. -/
structure Document where
  page_content : Content
  source : String
  deriving DecidableEq, Repr

deriving instance DecidableEq for Except

/-- A `*.txt` file of the source directory: its path and the outcome of
reading it (an `.error` models an `open`/decode exception). -/
structure DirFile where
  path : String
  read : Except PyExc Content
  deriving DecidableEq, Repr

/-- The per-file body of `_load_documents_with_decryption` (lines 174-198):
read the file; when an encryption manager is present and enabled, attempt
`decrypt_text` and on any failure keep the raw content; `none` models the
per-file exception path that records the file as failed and skips it. -/
def loadOne (em : Option EncryptionManager) (f : DirFile) : Option Document :=
  match f.read with
  | .error _ => none
  | .ok content =>
    let content2 :=
      match em with
      | some m =>
        if m.encryption_enabled then
          match m.decrypt_text content with
          | .ok p => Content.raw p
          | .error _ => content
        else content
      | none => content
    some { page_content := content2, source := f.path }

/-- Embeds `_load_documents_with_decryption` (lines 147-208): fold `loadOne` over
the directory listing, collecting the successfully loaded documents; the
function returns the collected list on every path and never raises. -/
def load_documents_with_decryption (em : Option EncryptionManager)
    (files : List DirFile) : List Document :=
  files.filterMap (loadOne em)

/-- C5: with an enabled manager, a file whose content fails to decrypt is
still loaded, with its raw content as the page content (the failure
affects only that file), and every file whose read succeeds is loaded;
the load call itself returns a list on every input (it never raises). -/
theorem C5_per_file_decrypt_fallback (em : EncryptionManager)
    (hen : em.encryption_enabled = true) (files : List DirFile)
    (f : DirFile) (hf : f ∈ files) (c : Content) (hread : f.read = .ok c)
    (e : PyExc) (hdec : em.decrypt_text c = .error e) :
    Document.mk c f.path ∈ load_documents_with_decryption (some em) files ∧
    (∀ g ∈ files, ∀ c2, g.read = .ok c2 →
      ∃ d, loadOne (some em) g = some d ∧
        d ∈ load_documents_with_decryption (some em) files) := by
  constructor
  · rw [load_documents_with_decryption, List.mem_filterMap]
    refine ⟨f, hf, ?_⟩
    simp [loadOne, hread, hen, hdec]
  · intro g hg c2 hread2
    have hs : (loadOne (some em) g).isSome := by
      rw [loadOne, hread2]
      cases em.decrypt_text c2 <;> simp [hen]
    obtain ⟨d, hd⟩ := Option.isSome_iff_exists.mp hs
    exact ⟨d, hd, by
      rw [load_documents_with_decryption, List.mem_filterMap]
      exact ⟨g, hg, hd⟩⟩

/-- Concrete loader fallback instance: two files, the first holding
undecryptable plain text, the second a valid token; both are loaded and
the first falls back to its raw content. -/
theorem C5_per_file_decrypt_fallback_witness :
    Document.mk (Content.raw [1, 2]) "a.txt" ∈
      load_documents_with_decryption (some (get_encryption_manager (some 5) none))
        [⟨"a.txt", .ok (.raw [1, 2])⟩,
         ⟨"b.txt", .ok (.token (fernetEncrypt 5 0 [9]))⟩] :=
  (C5_per_file_decrypt_fallback (get_encryption_manager (some 5) none) rfl
    [⟨"a.txt", .ok (.raw [1, 2])⟩,
     ⟨"b.txt", .ok (.token (fernetEncrypt 5 0 [9]))⟩]
    ⟨"a.txt", .ok (.raw [1, 2])⟩ (by simp) (.raw [1, 2]) rfl
    integrityError rfl).1

/-! ## Configuration (`src/config.py`) -/

/-- The retrieval-relevant fields of `RAGConfig` (floats as rationals). -/
structure RAGConfig where
  chunk_size : Int
  chunk_overlap : Int
  retriever_k_bm25 : Int
  retriever_k_vector : Int
  ensemble_weight_bm25 : ℚ
  ensemble_weight_vector : ℚ
  deriving DecidableEq, Repr

/-- The `validate_weights` pydantic field validator, `src/config.py`
lines 109-115. -/
def validate_weights (v : ℚ) : Except PyExc ℚ :=
  if 0 ≤ v ∧ v ≤ 1 then .ok v
  else .error (.valueError "Weight must be between 0 and 1")

/-- The `validate_chunk_size` pydantic field validator, `src/config.py`
lines 117-123. -/
def validate_chunk_size (v : Int) : Except PyExc Int :=
  if v < 100 ∨ v > 5000 then
    .error (.valueError "Chunk size must be between 100 and 5000")
  else .ok v

/-- Embeds `RAGConfig.validate_weights_sum`, `src/config.py` lines 131-138. -/
def RAGConfig.validate_weights_sum (c : RAGConfig) : Except PyExc Unit :=
  if |c.ensemble_weight_bm25 + c.ensemble_weight_vector - 1| < 1 / 100 then
    .ok ()
  else .error (.valueError "Ensemble weights must sum to 1.0")

/-- Pydantic model construction of `RAGConfig`: run every field validator;
the only validated fields are the two ensemble weights and the chunk
size. -/
def RAGConfig.construct (c : RAGConfig) : Except PyExc RAGConfig :=
  match validate_weights c.ensemble_weight_bm25 with
  | .error e => .error e
  | .ok _ =>
    match validate_weights c.ensemble_weight_vector with
    | .error e => .error e
    | .ok _ =>
      match validate_chunk_size c.chunk_size with
      | .error e => .error e
      | .ok _ => .ok c

/-- Embeds `get_config`, `src/config.py` lines 141-147 (and thereby pipeline
construction, `MedVaultRAG.__init__` via `config()`): construct the model
and additionally validate the weight sum. `ensure_directories` touches
only the filesystem and is omitted. -/
def get_config (c : RAGConfig) : Except PyExc RAGConfig :=
  match c.construct with
  | .error e => .error e
  | .ok c2 =>
    match c2.validate_weights_sum with
    | .error e => .error e
    | .ok _ => .ok c2

/-- A configuration whose overlap (2000) is larger than its chunk size
(1024); every other field is the source default. -/
def overlapHeavyConfig : RAGConfig :=
  { chunk_size := 1024
    chunk_overlap := 2000
    retriever_k_bm25 := 5
    retriever_k_vector := 5
    ensemble_weight_bm25 := 35 / 100
    ensemble_weight_vector := 65 / 100 }

/-- C6 counterexample: a configuration with `chunk_overlap` greater than
`chunk_size` passes pipeline-construction validation, so construction
does not fail whenever the overlap is not strictly less than the chunk
size. -/
theorem C6_overlap_not_validated_counterexample :
    get_config overlapHeavyConfig = .ok overlapHeavyConfig ∧
    overlapHeavyConfig.chunk_size < overlapHeavyConfig.chunk_overlap := by
  constructor
  · simp only [get_config, RAGConfig.construct, validate_weights,
      validate_chunk_size, RAGConfig.validate_weights_sum, overlapHeavyConfig]
    norm_num
  · decide

/-- C6 amended: construction-time validation fails with `ValueError`
whenever the chunk size is outside [100, 5000]; the overlap is not
validated at construction at all — the validation outcome is unchanged
under any replacement of `chunk_overlap`. -/
theorem C6_chunk_size_validated_at_construction (c : RAGConfig) (o : Int) :
    ((c.chunk_size < 100 ∨ c.chunk_size > 5000) →
      ∃ e, get_config c = .error e) ∧
    get_config { c with chunk_overlap := o } =
      (get_config c).map (fun c2 => { c2 with chunk_overlap := o }) := by
  constructor
  · intro hsz
    by_cases h1 : 0 ≤ c.ensemble_weight_bm25 ∧ c.ensemble_weight_bm25 ≤ 1 <;>
    by_cases h2 : 0 ≤ c.ensemble_weight_vector ∧ c.ensemble_weight_vector ≤ 1 <;>
    simp [get_config, RAGConfig.construct, validate_weights,
      validate_chunk_size, if_pos hsz, h1, h2]
  · cases hw1 : validate_weights c.ensemble_weight_bm25 with
    | error e => simp [get_config, RAGConfig.construct, hw1, Except.map]
    | ok w1 =>
      cases hw2 : validate_weights c.ensemble_weight_vector with
      | error e => simp [get_config, RAGConfig.construct, hw1, hw2, Except.map]
      | ok w2 =>
        cases hcs : validate_chunk_size c.chunk_size with
        | error e =>
            simp [get_config, RAGConfig.construct, hw1, hw2, hcs, Except.map]
        | ok s =>
            simp only [get_config, RAGConfig.construct, hw1, hw2, hcs,
              RAGConfig.validate_weights_sum]
            split_ifs <;> rfl

/-- A configuration with chunk size 50, below the lower bound 100. -/
def smallChunkConfig : RAGConfig :=
  { chunk_size := 50
    chunk_overlap := 10
    retriever_k_bm25 := 5
    retriever_k_vector := 5
    ensemble_weight_bm25 := 35 / 100
    ensemble_weight_vector := 65 / 100 }

/-- Concrete instance of the amended C6 statement: construction of a
configuration with chunk size 50 fails. -/
theorem C6_chunk_size_validated_witness :
    ∃ e, get_config smallChunkConfig = .error e :=
  (C6_chunk_size_validated_at_construction smallChunkConfig 0).1 (by decide)

/-! ## Hybrid retrieval fusion

Modelled from the spec: the weighted rank-fusion algorithm (spec §4.5) is
realized by the LangChain `EnsembleRetriever`, which is external to the
repository; `src/rag_engine.py` lines 409-423 only construct it with the
configured weights. Per the spec: normalize the scores of each side to [0, 1]
within its own result set, fuse per distinct chunk identity with
`w_keyword * normalized_keyword_score (0 if absent) + w_vector *
normalized_vector_score (0 if absent)`, and sort descending by fused
score with deterministic tie-breaking (stable sort over the
keyword-first identity list). -/

/-- A chunk identity: `source_id` plus `sequence_index`. -/
abbrev ChunkId := String × Nat

/-- The minimum score of a result set (0 for the empty set, never used). -/
def loOf : List (ChunkId × ℚ) → ℚ
  | [] => 0
  | r :: rs => rs.foldl (fun a p => min a p.2) r.2

/-- The maximum score of a result set (0 for the empty set, never used). -/
def hiOf : List (ChunkId × ℚ) → ℚ
  | [] => 0
  | r :: rs => rs.foldl (fun a p => max a p.2) r.2

/-- Modelled from the spec: min-max normalization of the scores of a result set
to [0, 1] within that set (a degenerate set maps to the top score 1). -/
def normalizeScores (rs : List (ChunkId × ℚ)) : List (ChunkId × ℚ) :=
  rs.map (fun p => (p.1,
    if hiOf rs = loOf rs then 1 else (p.2 - loOf rs) / (hiOf rs - loOf rs)))

/-- The score a result set assigns to a chunk identity, 0 when absent. -/
def lookupScore (c : ChunkId) : List (ChunkId × ℚ) → ℚ
  | [] => 0
  | r :: rs => if r.1 = c then r.2 else lookupScore c rs

/-- The distinct chunk identities appearing in either result set,
keyword side first. -/
def fusedIds (nk nv : List (ChunkId × ℚ)) : List ChunkId :=
  (nk.map Prod.fst ++ nv.map Prod.fst).dedup

/-- Modelled from the spec: weighted rank fusion — normalize both sides,
score every distinct identity by the weighted sum of its normalized
scores (0 when absent from a side), and stable-sort descending by fused
score. -/
def fuse (wk wv : ℚ) (kw vec : List (ChunkId × ℚ)) : List (ChunkId × ℚ) :=
  ((fusedIds (normalizeScores kw) (normalizeScores vec)).map
    (fun c => (c, wk * lookupScore c (normalizeScores kw) +
                  wv * lookupScore c (normalizeScores vec)))).mergeSort
    (fun a b => decide (b.2 ≤ a.2))

/-! ### Fusion lemmas -/

theorem foldl_min_le_init (t : List (ChunkId × ℚ)) (a : ℚ) :
    t.foldl (fun b p => min b p.2) a ≤ a := by
  induction t generalizing a with
  | nil => simp
  | cons r s ih => exact le_trans (ih (min a r.2)) (min_le_left a r.2)

theorem foldl_min_le_mem (t : List (ChunkId × ℚ)) (a : ℚ) (p : ChunkId × ℚ)
    (hp : p ∈ t) : t.foldl (fun b q => min b q.2) a ≤ p.2 := by
  induction t generalizing a with
  | nil => cases hp
  | cons r s ih =>
      rcases List.mem_cons.mp hp with h | h
      · subst h
        exact le_trans (foldl_min_le_init s _) (min_le_right a p.2)
      · exact ih _ h

theorem init_le_foldl_max (t : List (ChunkId × ℚ)) (a : ℚ) :
    a ≤ t.foldl (fun b p => max b p.2) a := by
  induction t generalizing a with
  | nil => simp
  | cons r s ih => exact le_trans (le_max_left a r.2) (ih (max a r.2))

theorem mem_le_foldl_max (t : List (ChunkId × ℚ)) (a : ℚ) (p : ChunkId × ℚ)
    (hp : p ∈ t) : p.2 ≤ t.foldl (fun b q => max b q.2) a := by
  induction t generalizing a with
  | nil => cases hp
  | cons r s ih =>
      rcases List.mem_cons.mp hp with h | h
      · subst h
        exact le_trans (le_max_right a p.2) (init_le_foldl_max s _)
      · exact ih _ h

theorem loOf_le_of_mem (rs : List (ChunkId × ℚ)) (p : ChunkId × ℚ)
    (hp : p ∈ rs) : loOf rs ≤ p.2 := by
  cases rs with
  | nil => cases hp
  | cons r t =>
      rcases List.mem_cons.mp hp with h | h
      · subst h; exact foldl_min_le_init t p.2
      · exact foldl_min_le_mem t r.2 p h

theorem le_hiOf_of_mem (rs : List (ChunkId × ℚ)) (p : ChunkId × ℚ)
    (hp : p ∈ rs) : p.2 ≤ hiOf rs := by
  cases rs with
  | nil => cases hp
  | cons r t =>
      rcases List.mem_cons.mp hp with h | h
      · subst h; exact init_le_foldl_max t p.2
      · exact mem_le_foldl_max t r.2 p h

/-- Every normalized score lies in [0, 1]. -/
theorem normalizeScores_bounds (rs : List (ChunkId × ℚ)) :
    ∀ p ∈ normalizeScores rs, 0 ≤ p.2 ∧ p.2 ≤ 1 := by
  intro p hp
  rw [normalizeScores, List.mem_map] at hp
  obtain ⟨q, hq, rfl⟩ := hp
  by_cases hlh : hiOf rs = loOf rs
  · simp [hlh]
  · have h1 : loOf rs ≤ q.2 := loOf_le_of_mem rs q hq
    have h2 : q.2 ≤ hiOf rs := le_hiOf_of_mem rs q hq
    have hlt : loOf rs < hiOf rs :=
      lt_of_le_of_ne (le_trans h1 h2) (Ne.symm hlh)
    constructor
    · simp only [if_neg hlh]
      exact div_nonneg (by linarith) (by linarith)
    · simp only [if_neg hlh]
      rw [div_le_one (by linarith)]
      linarith

/-- Normalization does not change which identities appear. -/
theorem normalizeScores_fst (rs : List (ChunkId × ℚ)) :
    (normalizeScores rs).map Prod.fst = rs.map Prod.fst := by
  simp only [normalizeScores, List.map_map]
  rfl

/-- A chunk identity absent from a result set gets score 0. -/
theorem lookupScore_eq_zero (c : ChunkId) (rs : List (ChunkId × ℚ))
    (h : c ∉ rs.map Prod.fst) : lookupScore c rs = 0 := by
  induction rs with
  | nil => rfl
  | cons r t ih =>
      simp only [List.map_cons, List.mem_cons, not_or] at h
      rw [lookupScore, if_neg (fun hh => h.1 hh.symm)]
      exact ih h.2

/-- C1: with configured weights summing to 1, every entry of the fused
result carries exactly `w_keyword * normalized_keyword_score + w_vector *
normalized_vector_score` for its chunk identity (a side contributing 0
when the identity is absent from it); a chunk appearing in only one
index scores exactly `w_side * normalized_score_side`; and
every normalized score lies in [0, 1] within its own result set. -/
theorem C1_weighted_fusion (wk wv : ℚ) (hw : wk + wv = 1)
    (kw vec : List (ChunkId × ℚ)) (c : ChunkId) (s : ℚ)
    (hmem : (c, s) ∈ fuse wk wv kw vec) :
    s = wk * lookupScore c (normalizeScores kw) +
        wv * lookupScore c (normalizeScores vec) ∧
    (c ∉ vec.map Prod.fst → s = wk * lookupScore c (normalizeScores kw)) ∧
    (c ∉ kw.map Prod.fst → s = wv * lookupScore c (normalizeScores vec)) ∧
    (∀ p ∈ normalizeScores kw, 0 ≤ p.2 ∧ p.2 ≤ 1) ∧
    (∀ p ∈ normalizeScores vec, 0 ≤ p.2 ∧ p.2 ≤ 1) := by
  have hs : s = wk * lookupScore c (normalizeScores kw) +
      wv * lookupScore c (normalizeScores vec) := by
    rw [fuse, List.mem_mergeSort, List.mem_map] at hmem
    obtain ⟨id, hid, heq⟩ := hmem
    simp only [Prod.mk.injEq] at heq
    obtain ⟨rfl, h2⟩ := heq
    exact h2.symm
  refine ⟨hs, ?_, ?_, normalizeScores_bounds kw, normalizeScores_bounds vec⟩
  · intro hcv
    have h0 : lookupScore c (normalizeScores vec) = 0 :=
      lookupScore_eq_zero c _ (by rw [normalizeScores_fst]; exact hcv)
    rw [hs, h0, mul_zero, add_zero]
  · intro hck
    have h0 : lookupScore c (normalizeScores kw) = 0 :=
      lookupScore_eq_zero c _ (by rw [normalizeScores_fst]; exact hck)
    rw [hs, h0, mul_zero, zero_add]

/-- Concrete fusion instance: one keyword-only result with weight 35/100
fuses to 35/100 times its normalized score. -/
theorem C1_weighted_fusion_witness :
    (7 / 20 : ℚ) =
      35 / 100 * lookupScore ("a", 0) (normalizeScores [(("a", 0), 2)]) +
      65 / 100 * lookupScore ("a", 0) (normalizeScores []) :=
  (C1_weighted_fusion (35 / 100) (65 / 100) (by norm_num)
    [(("a", 0), 2)] [] ("a", 0) (7 / 20)
    (by
      rw [fuse, List.mem_mergeSort]
      simp [fusedIds, normalizeScores, lookupScore, loOf, hiOf]
      norm_num)).1

/-! ## Pipeline controller (`src/rag_engine.py`)

The `MedVaultRAG` instance state is embedded as an explicit record, the
filesystem (source directory and persisted Chroma store) as a second
record, and the external collaborators (LangChain splitter, BM25 builder,
Chroma, the Ollama HTTP probe) as an environment of deterministic
functions plus failure-injection flags. A `Chroma` collection is
identified with the chunk list it stores. -/

/-- A BM25 retriever: the chunk snapshot it was built over and its k
(`BM25Retriever.from_documents` + `bm25_retriever.k`, lines 368-369). -/
structure BM25 where
  chunks : List Document
  k : Int
  deriving DecidableEq, Repr

/-- A Chroma-backed vector retriever: the collection content and its k
(`vector_db.as_retriever(search_kwargs={"k": ...})`, lines 398-400). -/
structure VectorRetriever where
  db : List Document
  k : Int
  deriving DecidableEq, Repr

/-- The value of `self.ensemble_retriever`: the hybrid `EnsembleRetriever`
(line 410), a bare BM25 retriever (lines 393, 404), or a bare vector
retriever (line 426). -/
inductive Retriever
  | hybrid (b : BM25) (v : VectorRetriever) (w_bm25 w_vector : ℚ)
  | bm25Only (b : BM25)
  | vectorOnly (v : VectorRetriever)
  deriving DecidableEq, Repr

/-- The mutable attributes of a `MedVaultRAG` instance (lines 57-62):
`embedding_function` and `llm` reduced to presence booleans. -/
structure RAGState where
  cfg : RAGConfig
  vector_db : Option (List Document)
  ensemble_retriever : Option Retriever
  embedding_function : Bool
  llm : Bool
  encryption_manager : Option EncryptionManager
  deriving DecidableEq, Repr

/-- The filesystem as the pipeline sees it: whether the persisted vector
store directory exists and its content, and whether the source data
directory exists together with its `*.txt` listing. -/
structure FS where
  storeExists : Bool
  store : Option (List Document)
  dataDirExists : Bool
  files : List DirFile
  deriving DecidableEq, Repr

/-- Outcome of the HTTP GET against `/api/tags`
(`_test_ollama_connection`, lines 123-145). -/
inductive ProbeOutcome
  | status (code : Nat)
  | timeout
  | connError
  | otherExc
  deriving DecidableEq, Repr

/-- External collaborators: the text splitter as one deterministic
function (modelled from the spec, §4.3/§4.6 — `load_existing` re-chunks
identically to ingestion), failure injection for BM25 construction,
Chroma creation, Chroma loading and retriever creation, and the probe
outcome. -/
structure ExtEnv where
  split : List Document → List Document
  bm25Fails : List Document → Bool
  chromaFromFails : Bool
  chromaLoadFails : Bool
  asRetrieverFails : Bool
  probe : ProbeOutcome

/-- The value `_initialize_retrievers` leaves in `self.ensemble_retriever`
once `self.vector_db` holds `db` (lines 365-430): BM25 failure degrades to
vector-only; retriever-creation failure falls back to BM25-only when
available; empty chunks leave the previous value. -/
def newEnsemble (env : ExtEnv) (cfg : RAGConfig) (old : Option Retriever)
    (db chunks : List Document) : Option Retriever :=
  if chunks = [] then old
  else if env.asRetrieverFails then
    if env.bm25Fails chunks then old
    else some (.bm25Only ⟨chunks, cfg.retriever_k_bm25⟩)
  else
    if env.bm25Fails chunks then
      some (.vectorOnly ⟨db, cfg.retriever_k_vector⟩)
    else
      some (.hybrid ⟨chunks, cfg.retriever_k_bm25⟩
        ⟨db, cfg.retriever_k_vector⟩
        cfg.ensemble_weight_bm25 cfg.ensemble_weight_vector)

/-- Embeds `_initialize_retrievers` (lines 352-433). The branch creating a
Chroma store when `self.vector_db` is unset (lines 376-395) is embedded
for completeness; it is unreachable from `ingest`/`load_existing`, which
always set `vector_db` first, so its store write is not modelled. The
method absorbs every internal exception and only ever reassigns
`self.ensemble_retriever` (and `self.vector_db` in the dead branch). -/
def init_retrievers (env : ExtEnv) (st : RAGState) (chunks : List Document) :
    RAGState :=
  match st.vector_db with
  | some db =>
      { st with ensemble_retriever :=
          newEnsemble env st.cfg st.ensemble_retriever db chunks }
  | none =>
      if chunks = [] then st
      else if env.chromaFromFails then
        if env.bm25Fails chunks then st
        else
          { st with ensemble_retriever :=
                      some (.bm25Only ⟨chunks, st.cfg.retriever_k_bm25⟩) }
      else
        { st with
            vector_db := some chunks
            ensemble_retriever :=
              newEnsemble env st.cfg st.ensemble_retriever chunks chunks }

/-- Embeds `MedVaultRAG.load_existing` (lines 292-350): require the persisted
store, load it into `vector_db` (failure injection models a raising
Chroma constructor, caught and reported as `False`), then rebuild the
BM25 side by reloading and re-chunking the source documents; a missing
source directory degrades to vector-only with no retriever rebuild. -/
def load_existing (env : ExtEnv) (st : RAGState) (fs : FS) :
    Bool × RAGState × FS :=
  if fs.storeExists = false then (false, st, fs)
  else if env.chromaLoadFails then (false, st, fs)
  else
    if fs.dataDirExists then
      (true,
       init_retrievers env { st with vector_db := some (fs.store.getD []) }
         (env.split (load_documents_with_decryption st.encryption_manager
           fs.files)),
       fs)
    else (true, { st with vector_db := some (fs.store.getD []) }, fs)

/-- Embeds `MedVaultRAG.ingest` (lines 210-290) with the effective source path
fixed to the modelled directory: create the data directory and report
failure when it is missing; delegate to `load_existing` when the store
exists and `force_reindex` is false; otherwise load, chunk, build and
persist the Chroma store (failure reported as `False` with no state
change), then initialize the retrievers. -/
def ingest (env : ExtEnv) (st : RAGState) (fs : FS) (force_reindex : Bool) :
    Bool × RAGState × FS :=
  if fs.dataDirExists = false then
    (false, st, { fs with dataDirExists := true })
  else if fs.storeExists && !force_reindex then
    load_existing env st fs
  else
    if load_documents_with_decryption st.encryption_manager fs.files = [] then
      (false, st, fs)
    else
      if env.chromaFromFails then (false, st, fs)
      else
        (true,
         init_retrievers env
           { st with vector_db :=
                       some (env.split (load_documents_with_decryption
                         st.encryption_manager fs.files)) }
           (env.split (load_documents_with_decryption st.encryption_manager
             fs.files)),
         { fs with
             storeExists := true
             store := some (env.split (load_documents_with_decryption
               st.encryption_manager fs.files)) })

/-- Embeds `_test_ollama_connection` (lines 123-145): status 200 is connected;
timeout, connection error, and any other exception all return `False`. -/
def test_ollama_connection : ProbeOutcome → Bool
  | .status code => code == 200
  | .timeout => false
  | .connError => false
  | .otherExc => false

/-- The mapping returned by `health_check` (lines 563-596). -/
structure HealthReport where
  ollama_connected : Bool
  vector_store_loaded : Bool
  retriever_ready : Bool
  embedding_model_loaded : Bool
  deriving DecidableEq, Repr

/-- Embeds `MedVaultRAG.health_check` (lines 563-596): the boolean of each component
derived from the current state, with the connectivity probe wrapped so a
failure reports `ollama_connected = false`; the method performs no
attribute assignment, which the returned state makes explicit. -/
def health_check (env : ExtEnv) (st : RAGState) : HealthReport × RAGState :=
  ({ ollama_connected := test_ollama_connection env.probe,
     vector_store_loaded := st.vector_db.isSome,
     retriever_ready := st.ensemble_retriever.isSome,
     embedding_model_loaded := st.embedding_function }, st)

/-- The validation prefix of `MedVaultRAG.query` (lines 470-480): reject
when no retriever is initialized, reject an empty or whitespace-only
question, otherwise strip the question and hand it to the retrieval
chain (external from here on); the returned state makes explicit that no
attribute is assigned. -/
def query_validation (st : RAGState) (question : String) :
    Except PyExc String × RAGState :=
  if st.ensemble_retriever.isNone then
    (.error (.valueError "System not initialized. Please ingest data first."),
     st)
  else if question = "" ∨ question.trim = "" then
    (.error (.valueError "Question cannot be empty"), st)
  else (.ok question.trim, st)

/-! ### Pipeline lemmas -/

/-- When `vector_db` is already set, `_initialize_retrievers` only
reassigns `ensemble_retriever`. -/
theorem init_retrievers_some (env : ExtEnv) (st : RAGState)
    (db chunks : List Document) (h : st.vector_db = some db) :
    init_retrievers env st chunks =
      { st with ensemble_retriever :=
          newEnsemble env st.cfg st.ensemble_retriever db chunks } := by
  simp only [init_retrievers, h]

/-- Recomputing the ensemble from the state it just produced yields the
same ensemble. -/
theorem newEnsemble_idem (env : ExtEnv) (cfg : RAGConfig)
    (old : Option Retriever) (db chunks : List Document) :
    newEnsemble env cfg (newEnsemble env cfg old db chunks) db chunks =
      newEnsemble env cfg old db chunks := by
  simp only [newEnsemble]
  split_ifs <;> rfl

/-- C2: on an ingest run over an existing source directory, (1) on a
fresh build (no persisted store, or forced), a vector-index construction
failure makes `ingest` return `False` with pipeline state and filesystem
unchanged — in particular no retriever is initialized; (2) on the
delegate path, a vector-index load failure likewise fails the call with
state unchanged; (3) a keyword-index construction failure alone is
absorbed: `ingest` still succeeds and the retriever degrades to
vector-only. -/
theorem C2_vector_mandatory_keyword_best_effort (env : ExtEnv)
    (st : RAGState) (fs : FS) (force : Bool)
    (hdir : fs.dataDirExists = true)
    (hfresh : fs.storeExists = false ∨ force = true) :
    (env.chromaFromFails = true → ingest env st fs force = (false, st, fs)) ∧
    (∀ fs2 : FS, fs2.dataDirExists = true → fs2.storeExists = true →
      env.chromaLoadFails = true →
      ingest env st fs2 false = (false, st, fs2)) ∧
    (env.chromaFromFails = false → env.asRetrieverFails = false →
      env.bm25Fails (env.split (load_documents_with_decryption
        st.encryption_manager fs.files)) = true →
      load_documents_with_decryption st.encryption_manager fs.files ≠ [] →
      env.split (load_documents_with_decryption st.encryption_manager
        fs.files) ≠ [] →
      (ingest env st fs force).1 = true ∧
      (ingest env st fs force).2.1.ensemble_retriever =
        some (.vectorOnly ⟨env.split (load_documents_with_decryption
          st.encryption_manager fs.files), st.cfg.retriever_k_vector⟩)) := by
  have hnotload : (fs.storeExists && !force) = false := by
    rcases hfresh with h | h <;> simp [h]
  refine ⟨?_, ?_, ?_⟩
  · intro hcf
    by_cases hd : load_documents_with_decryption st.encryption_manager
        fs.files = [] <;>
      simp [ingest, hdir, hnotload, hd, hcf]
  · intro fs2 h1 h2 hcl
    simp [ingest, load_existing, h1, h2, hcl]
  · intro hcf har hbm hdocs hchunks
    have h1 : init_retrievers env
        { st with vector_db := some (env.split
            (load_documents_with_decryption st.encryption_manager fs.files)) }
        (env.split (load_documents_with_decryption st.encryption_manager
          fs.files)) =
        { st with
            vector_db := some (env.split (load_documents_with_decryption
              st.encryption_manager fs.files))
            ensemble_retriever := some (.vectorOnly ⟨env.split
              (load_documents_with_decryption st.encryption_manager fs.files),
              st.cfg.retriever_k_vector⟩) } := by
      rw [init_retrievers_some env _ _ _ rfl]
      simp [newEnsemble, hchunks, har, hbm]
    simp [ingest, hdir, hnotload, hdocs, hcf, h1]

/-- The source defaults of the retrieval configuration
(`src/config.py`). -/
def defaultRAGConfig : RAGConfig :=
  { chunk_size := 1024
    chunk_overlap := 100
    retriever_k_bm25 := 5
    retriever_k_vector := 5
    ensemble_weight_bm25 := 35 / 100
    ensemble_weight_vector := 65 / 100 }

/-- A freshly constructed pipeline: components present, no index. -/
def freshState : RAGState :=
  { cfg := defaultRAGConfig
    vector_db := none
    ensemble_retriever := none
    embedding_function := true
    llm := true
    encryption_manager := none }

/-- An environment in which Chroma creation fails. -/
def envVectorFail : ExtEnv :=
  { split := id
    bm25Fails := fun _ => true
    chromaFromFails := true
    chromaLoadFails := false
    asRetrieverFails := false
    probe := .timeout }

/-- Concrete instance of C2 part (1): with Chroma creation failing,
`ingest` on a fresh store fails and changes nothing. -/
theorem C2_vector_mandatory_witness :
    ingest envVectorFail freshState ⟨false, none, true, []⟩ false =
      (false, freshState, ⟨false, none, true, []⟩) :=
  (C2_vector_mandatory_keyword_best_effort envVectorFail freshState
    ⟨false, none, true, []⟩ false rfl (Or.inl rfl)).1 rfl

/-- C7: on a path whose vector store is already persisted (and whose
source directory exists), `ingest` with `force=false` (1) returns exactly
what `load_existing` returns, (2) writes nothing to the persisted store,
and (3) is idempotent: after a successful such call, repeating it returns
the same success, the same pipeline state, and the same filesystem. -/
theorem C7_ingest_idempotent (env : ExtEnv) (st : RAGState) (fs : FS)
    (hstore : fs.storeExists = true) (hdir : fs.dataDirExists = true) :
    ingest env st fs false = load_existing env st fs ∧
    (ingest env st fs false).2.2 = fs ∧
    (∀ (st1 : RAGState) (fs1 : FS),
      ingest env st fs false = (true, st1, fs1) →
      ingest env st1 fs1 false = (true, st1, fs1)) := by
  obtain ⟨cfg, vdb, ens, emb, l, encm⟩ := st
  obtain ⟨se, store, de, files⟩ := fs
  replace hstore : se = true := hstore
  replace hdir : de = true := hdir
  subst hstore; subst hdir
  have hdel : ingest env ⟨cfg, vdb, ens, emb, l, encm⟩
      ⟨true, store, true, files⟩ false =
      load_existing env ⟨cfg, vdb, ens, emb, l, encm⟩
        ⟨true, store, true, files⟩ := by
    simp [ingest]
  refine ⟨hdel, ?_, ?_⟩
  · rw [hdel]
    by_cases hcl : env.chromaLoadFails <;>
      simp [load_existing, hcl, init_retrievers]
  · intro st1 fs1 heq
    rw [hdel] at heq
    by_cases hcl : env.chromaLoadFails
    · simp [load_existing, hcl] at heq
    · rw [load_existing] at heq
      simp only [hcl, if_false, if_true, Bool.false_eq_true] at heq
      rw [init_retrievers_some env _ (store.getD []) _ rfl] at heq
      obtain ⟨rfl, rfl⟩ := (Prod.mk.injEq _ _ _ _).mp
        ((Prod.mk.injEq _ _ _ _).mp heq).2
      simp only [ingest, load_existing, hcl, Bool.and_self, if_true,
        if_false, Bool.false_eq_true]
      rw [init_retrievers_some env _ (store.getD []) _ rfl]
      simp [newEnsemble_idem]

/-- An environment in which every external collaborator succeeds. -/
def envAllOk : ExtEnv :=
  { split := id
    bm25Fails := fun _ => false
    chromaFromFails := false
    chromaLoadFails := false
    asRetrieverFails := false
    probe := .status 200 }

/-- Concrete instance of C7 part (1): with a persisted (empty) store,
`ingest` delegates to `load_existing`. -/
theorem C7_ingest_idempotent_witness :
    ingest envAllOk freshState ⟨true, some [], true, []⟩ false =
      load_existing envAllOk freshState ⟨true, some [], true, []⟩ :=
  (C7_ingest_idempotent envAllOk freshState ⟨true, some [], true, []⟩
    rfl rfl).1

/-- C8: the health check returns the current state unchanged (it mutates
nothing); its report is exactly the component booleans derived from that
state; and every probe failure outcome (timeout, connection error, other
exception) is reported as `false` rather than raised. -/
theorem C8_health_check_pure_and_total (env : ExtEnv) (st : RAGState) :
    (health_check env st).2 = st ∧
    (health_check env st).1 =
      { ollama_connected := test_ollama_connection env.probe
        vector_store_loaded := st.vector_db.isSome
        retriever_ready := st.ensemble_retriever.isSome
        embedding_model_loaded := st.embedding_function } ∧
    (∀ p : ProbeOutcome, p = .timeout ∨ p = .connError ∨ p = .otherExc →
      test_ollama_connection p = false) := by
  refine ⟨rfl, rfl, ?_⟩
  rintro p (rfl | rfl | rfl) <;> rfl

/-- C9: `query` leaves the pipeline state unchanged on every input; its
validation rejects with `ValueError` exactly when no retriever is
initialized or the question is empty/whitespace-only; otherwise the
question passed on to retrieval is the stripped question. -/
theorem C9_query_validation_cases (st : RAGState) (question : String) :
    (query_validation st question).2 = st ∧
    ((∃ e, (query_validation st question).1 = .error e) ↔
      (st.ensemble_retriever = none ∨ question = "" ∨
        question.trim = "")) ∧
    (∀ q, (query_validation st question).1 = .ok q → q = question.trim) := by
  refine ⟨?_, ?_, ?_⟩
  · rw [query_validation]
    split_ifs <;> rfl
  · rw [query_validation]
    by_cases h1 : st.ensemble_retriever.isNone
    · simp [h1, Option.isNone_iff_eq_none.mp h1]
    · have h1n : ¬ st.ensemble_retriever = none := fun h => h1 (by simp [h])
      by_cases h2 : question = "" ∨ question.trim = ""
      · simp [h1, h1n, h2, or_assoc]
      · have hq : ¬ question = "" := fun h => h2 (Or.inl h)
        have htrim : ¬ question.trim = "" := fun h => h2 (Or.inr h)
        simp [h1, h1n, hq, htrim]
  · intro q
    rw [query_validation]
    split_ifs with h1 h2
    · intro h; cases h
    · intro h; cases h
    · intro h
      have h3 : Except.ok question.trim = Except.ok q := h
      injection h3 with h4
      exact h4.symm

end MedVault
